import Mathlib

/-!
Shallow embedding of `v2srt.py`.

This file embeds the core of the `v2srt` video-to-subtitle pipeline
(`src/v2srt.py`) in Lean 4 and proves the specification claims about it.

Modelling conventions:
* Python strings are modelled as `List Char` (`PyStr`).
* Python `float` arithmetic is modelled over `ℚ`; the only float operations
  the source performs on time values (division by 1000, `int()` truncation,
  `round()`, sums) are exact on the millisecond-granular rationals the
  claims quantify over, so the rational model is faithful there.
* Fallible Python code (code that can raise `TypeError`, `ValueError` or
  `KeyError`) is modelled with `Option`.
* External subprocess invocations (ffmpeg, whisper-cli) and file IO are
  collaborators outside the own logic of the source; the embedding keeps the
  data that flows through them (paths, yielded pairs, transcript segments)
  and drops the side effects.
-/

/-- Python strings, modelled as lists of characters. -/
abbrev PyStr := List Char

/-- The characters Python `str.strip()` removes (ASCII whitespace:
space, tab, newline, carriage return, vertical tab, form feed). -/
def pySpace (c : Char) : Bool :=
  c == ' ' || c == '\t' || c == '\n' || c == '\r' || c == '\x0b' || c == '\x0c'

/-- Python `str.strip()`: remove leading and trailing whitespace. -/
def pyStrip (s : PyStr) : PyStr :=
  ((s.dropWhile pySpace).reverse.dropWhile pySpace).reverse

/-- Python `str.split(sep)` for a single-character separator: split at every
occurrence of `sep`; `"".split(sep)` is `[""]`. -/
def splitOnChar (sep : Char) : PyStr → List PyStr
  | [] => [[]]
  | c :: cs =>
    match splitOnChar sep cs with
    | [] => [[c]]
    | h :: t => if c == sep then [] :: h :: t else (c :: h) :: t

/-- The decimal digit character for `d < 10`. -/
def digitChar (d : ℕ) : Char := Char.ofNat (48 + d)

/-- The numeric value of a decimal digit character. -/
def digitVal (c : Char) : ℕ := c.toNat - 48

/-- Decimal rendering of a natural number (Python `str`/`repr` of a
non-negative `int`). -/
def natToStr (n : ℕ) : PyStr :=
  if n = 0 then ['0'] else ((Nat.digits 10 n).reverse.map digitChar)

/-- Left-pad with `'0'` to width `w` (the digit part of Python's `{:0w}`
format specifier). -/
def pad0 (w : ℕ) (s : PyStr) : PyStr := List.replicate (w - s.length) '0' ++ s

/-- Python `f-string` formatting `{i:0w}` of an `int`: zero padding to width
`w`, the sign counted inside the width. -/
def formatZeroPad (w : ℕ) (i : ℤ) : PyStr :=
  if i < 0 then '-' :: pad0 (w - 1) (natToStr i.natAbs) else pad0 w (natToStr i.toNat)

/-- Python `int(s)` restricted to plain non-empty decimal digit strings
(the only shape the time-code fields can have when parsing succeeds);
any other string raises `ValueError`, modelled as `none`. -/
def pyInt? (s : PyStr) : Option ℕ :=
  if s ≠ [] ∧ s.all Char.isDigit then
    some (Nat.ofDigits 10 ((s.map digitVal).reverse))
  else none

/-- Python `int(x)` on a float: truncation toward zero. -/
def pyTrunc (q : ℚ) : ℤ := if q < 0 then ⌈q⌉ else ⌊q⌋

/-- Python `round(x)` to the nearest integer, ties to the even integer. -/
def pyRound (q : ℚ) : ℤ :=
  if q - ⌊q⌋ < 1 / 2 then ⌊q⌋
  else if 1 / 2 < q - ⌊q⌋ then ⌊q⌋ + 1
  else if ⌊q⌋ % 2 = 0 then ⌊q⌋ else ⌊q⌋ + 1

/-- Prefix match against the module-level regex `seconds_pattern`
(pattern `HH:MM:SS,mmm`, i.e. two digits, colon, two digits, colon, two
digits, comma, three digits).  Python `re.match` anchors only at the
start, so trailing characters are allowed. -/
def seconds_pattern (s : PyStr) : Bool :=
  match s with
  | d1 :: d2 :: c1 :: d3 :: d4 :: c2 :: d5 :: d6 :: c3 :: d7 :: d8 :: d9 :: _ =>
    d1.isDigit && d2.isDigit && c1 == ':' && d3.isDigit && d4.isDigit && c2 == ':' &&
      d5.isDigit && d6.isDigit && c3 == ',' && d7.isDigit && d8.isDigit && d9.isDigit
  | _ => false

/-- Prefix match against the module-level regex
`seconds_with_milliseconds_pattern` (pattern `HH:MM:SS`). -/
def seconds_with_milliseconds_pattern (s : PyStr) : Bool :=
  match s with
  | d1 :: d2 :: c1 :: d3 :: d4 :: c2 :: d5 :: d6 :: _ =>
    d1.isDigit && d2.isDigit && c1 == ':' && d3.isDigit && d4.isDigit && c2 == ':' &&
      d5.isDigit && d6.isDigit
  | _ => false

/-- Modelled from the spec: a string that matches `HH:MM:SS,mmm` *in full*
(the spec wording "strings matching `HH:MM:SS,mmm`"), i.e. a prefix match that
consumes the whole 12-character string. -/
def spec_full_millis (s : PyStr) : Bool :=
  seconds_pattern s && s.length == 12

/-- Modelled from the spec: a string that matches `HH:MM:SS` *in full*. -/
def spec_full_hms (s : PyStr) : Bool :=
  seconds_with_milliseconds_pattern s && s.length == 8

/-- The canonical zero time code string `00:00:00,000`. -/
def zero_code : PyStr := "00:00:00,000".toList

/-- A `TimeCode` object: it stores only its `code` string. -/
structure TimeCode where
  code : PyStr
deriving DecidableEq, Repr

/-- The `Union[float, str]` argument of `TimeCode.__init__`. -/
inductive TCInput
  | float (q : ℚ)
  | str (s : PyStr)

/-- Conversion `TimeCode.seconds_to_code`:
`hours = int(seconds) // 3600; minutes = (int(seconds) % 3600) // 60;`
`secs = int(seconds) % 60; millis = round((seconds - int(seconds)) * 1000)`
rendered as `f"{hours:02}:{minutes:02}:{secs:02},{millis:03}"`.
Python `//` and `%` on ints are floor division and floor modulus. -/
def TimeCode.seconds_to_code (seconds : ℚ) : PyStr :=
  let n : ℤ := pyTrunc seconds
  let hours : ℤ := Int.fdiv n 3600
  let minutes : ℤ := Int.fdiv (Int.fmod n 3600) 60
  let secs : ℤ := Int.fmod n 60
  let millis : ℤ := pyRound ((seconds - (n : ℚ)) * 1000)
  formatZeroPad 2 hours ++ ':' ::
    (formatZeroPad 2 minutes ++ ':' :: (formatZeroPad 2 secs ++ ',' :: formatZeroPad 3 millis))

/-- Constructor `TimeCode.__init__`: a float is converted with `seconds_to_code`; a
string prefix-matching `seconds_pattern` is stored unchanged; otherwise a
string prefix-matching `seconds_with_milliseconds_pattern` is stored with
`,000` appended; anything else raises `TypeError` (`none`). -/
def TimeCode.init? : TCInput → Option TimeCode
  | TCInput.float q => some ⟨TimeCode.seconds_to_code q⟩
  | TCInput.str s =>
    if seconds_pattern s then some ⟨s⟩
    else if seconds_with_milliseconds_pattern s then some ⟨s ++ [',', '0', '0', '0']⟩
    else none

/-- The `TimeCode.seconds` property:
`h, m, rest = self.code.split(":")` (raises unless exactly 3 parts), then
`s, ms = rest.split(",")` when `rest` contains a comma (raises unless
exactly 2 parts) else `s = rest; ms = 0`, returning
`int(h) * 3600 + int(m) * 60 + int(s) + int(ms) / 1000`. -/
def TimeCode.seconds (t : TimeCode) : Option ℚ :=
  match splitOnChar ':' t.code with
  | [h, m, rest] =>
    if ',' ∈ rest then
      match splitOnChar ',' rest with
      | [s, ms] =>
        match pyInt? h, pyInt? m, pyInt? s, pyInt? ms with
        | some hv, some mv, some sv, some msv =>
          some ((hv : ℚ) * 3600 + (mv : ℚ) * 60 + (sv : ℚ) + (msv : ℚ) / 1000)
        | _, _, _, _ => none
      | _ => none
    else
      match pyInt? h, pyInt? m, pyInt? rest with
      | some hv, some mv, some sv => some ((hv : ℚ) * 3600 + (mv : ℚ) * 60 + (sv : ℚ))
      | _, _, _ => none
  | _ => none

/-- Test `TimeCode.is_zero`: the code equals `00:00:00,000`. -/
def TimeCode.is_zero (t : TimeCode) : Bool := t.code == zero_code

/-- Projection `TimeCode.without_millis`: the part before the comma in
`self.code.split(",")`, unpacked into exactly two pieces — raises
unless the code contains exactly one comma. -/
def TimeCode.without_millis (t : TimeCode) : Option PyStr :=
  match splitOnChar ',' t.code with
  | [p, _] => some p
  | _ => none

/-- Addition `TimeCode.add`: `TimeCode(self.seconds + code.seconds)`
(either `seconds` property may raise). -/
def TimeCode.add (a b : TimeCode) : Option TimeCode := do
  let x ← a.seconds
  let y ← b.seconds
  TimeCode.init? (TCInput.float (x + y))

/-- An `SRTEntry` object: index, start/end `TimeCode`, text. -/
structure SRTEntry where
  index : ℕ
  start_time : TimeCode
  end_time : TimeCode
  text : PyStr
deriving DecidableEq, Repr

/-- Constructor `SRTEntry.__init__`: builds `TimeCode(start_time)` and `TimeCode(end_time)`
from the given strings (either may raise) and strips the text. -/
def SRTEntry.init? (index : ℕ) (start_time end_time text : PyStr) : Option SRTEntry := do
  let st ← TimeCode.init? (TCInput.str start_time)
  let et ← TimeCode.init? (TCInput.str end_time)
  some ⟨index, st, et, pyStrip text⟩

/-- Assignment `entries[index].text = translated_text`: replace the `text` field. -/
def SRTEntry.setText (e : SRTEntry) (t : PyStr) : SRTEntry := { e with text := t }

/-- One transcript segment as found in the whisper JSON.  The source reads
`entry["timestamps"]["from"]`, `entry["timestamps"]["to"]` and
`entry["text"]`, so the two shapes the spec names are modelled as the two
constructors: `nested` has the `timestamps` key, `flat` does not. -/
inductive TransSeg
  | nested (ts_from ts_to text : PyStr)
  | flat (t_start t_end text : PyStr)
deriving DecidableEq, Repr

namespace VideoHandler

/-- The per-segment entry construction in `VideoHandler.run`:
`SRTEntry(index=base+i, start_time=entry["timestamps"]["from"],
end_time=entry["timestamps"]["to"], text=entry["text"])`.
A `flat` segment has no `timestamps` key, so the subscript raises
`KeyError` (`none`) before `SRTEntry` is ever constructed. -/
def makeEntry (index : ℕ) : TransSeg → Option SRTEntry
  | TransSeg.nested f t x => SRTEntry.init? index f t x
  | TransSeg.flat _ _ _ => none

/-- The dict comprehension
`{base+i: SRTEntry(index=base+i, ...) for i, entry in enumerate(batch)}`,
keeping the values in insertion order (`entries.values()` iterates in
insertion order; the keys `base+i` are distinct). `i` is the running
`enumerate` counter. -/
def batchEntriesGo (base : ℕ) : ℕ → List TransSeg → Option (List SRTEntry)
  | _, [] => some []
  | i, seg :: rest => do
    let e ← makeEntry (base + i) seg
    let more ← batchEntriesGo base (i + 1) rest
    some (e :: more)

/-- Structural helper for `batched50`: `k` is the remaining capacity of
the chunk being built, `cur` that chunk in reverse order. -/
def batchedGo {α : Type} : ℕ → List α → List α → List (List α)
  | _, cur, [] => if cur.isEmpty then [] else [cur.reverse]
  | 0, cur, a :: rest => cur.reverse :: batchedGo 49 [a] rest
  | k + 1, cur, a :: rest => batchedGo k (a :: cur) rest

/-- Chunking `itertools.batched(l, 50)` (`translate_threshold = 50`): split a list
into consecutive chunks of 50, the last chunk possibly shorter. -/
def batched50 {α : Type} (l : List α) : List (List α) := batchedGo 50 [] l

/-- The inner batch loop of `VideoHandler.run` for one transcription:
for each batch, build the entries dict (`base+i` keys) and advance
`base += len(batch)`.  Returns the new `base` and the entries written,
in write order.  The translation step (`self.gemini_client` unset) does
not run; when it does run it only mutates `text` fields, never indices
or order. -/
def runBatches (base : ℕ) : List (List TransSeg) → Option (ℕ × List SRTEntry)
  | [] => some (base, [])
  | b :: rest => do
    let es ← batchEntriesGo base 0 b
    let (b2, more) ← runBatches (base + b.length) rest
    some (b2, es ++ more)

/-- The outer loop of `VideoHandler.run` over the audio segments: each
transcription of each segment is processed in batches of 50; `base` is never
reset between segments. -/
def runSegments (base : ℕ) : List (List TransSeg) → Option (ℕ × List SRTEntry)
  | [] => some (base, [])
  | seg :: rest => do
    let (b2, es) ← runBatches base (batched50 seg)
    let (b3, more) ← runSegments b2 rest
    some (b3, es ++ more)

/-- Orchestrator `VideoHandler.run`, reduced to its data flow: given the transcript
segments of each audio segment (in order), the list of `SRTEntry` values
written to the output file, in order.  `base` starts at 1. -/
def run (segments : List (List TransSeg)) : Option (List SRTEntry) :=
  (runSegments 1 segments).map Prod.snd

end VideoHandler

/-- An element of the list `[TimeCode(zero), *self.cut_times, end]`
as seen in the second position of a `pairwise` pair: either a cut
`TimeCode` or the string sentinel `end`.  (Comparing a `TimeCode` with
that string in Python is
`False` for every `TimeCode`, since `TimeCode` defines no `__eq__`.) -/
inductive CutPoint
  | tc (t : TimeCode)
  | endmark
deriving DecidableEq, Repr

/-- Comparison of `to` with the string sentinel `end`. -/
def CutPoint.isEnd : CutPoint → Bool
  | CutPoint.endmark => true
  | CutPoint.tc _ => false

/-- Pairing `itertools.pairwise` over the boundary list (zero time code,
then the cut times, then the `end` sentinel):
consecutive pairs; the first component is always a `TimeCode` (the
sentinel is last), the second is a `CutPoint`. -/
def pairsWithEnd : TimeCode → List TimeCode → List (TimeCode × CutPoint)
  | a, [] => [(a, CutPoint.endmark)]
  | a, b :: rest => (a, CutPoint.tc b) :: pairsWithEnd b rest

/-- Path splitting `os.path.splitext`, simplified to "split at the last
dot": returns
`(root, ext)` with `ext` the `'.'`-led suffix, or `(p, "")` when `p` has
no dot.  (The special cases of the stdlib for directory separators and
leading-dot basenames do not arise for the `.wav` paths used here.) -/
def splitext (p : PyStr) : PyStr × PyStr :=
  let r := p.reverse
  match r.dropWhile (fun c => !(c == '.')) with
  | [] => (p, [])
  | _ :: base => (base.reverse, '.' :: (r.takeWhile (fun c => !(c == '.'))).reverse)

/-- The f-string suffix `f"-{i}.wav"` of `output_path = f"{basename}-{i}.wav"`. -/
def segSuffix (i : ℕ) : PyStr := '-' :: (natToStr i ++ ".wav".toList)

/-- The `-to` command-line argument: `to.without_millis()` is called iff
`to` is not the `end` sentinel, and may raise. -/
def CutPoint.toArg : CutPoint → Option Unit
  | CutPoint.tc t => t.without_millis.map (fun _ => ())
  | CutPoint.endmark => some ()

/-- The loop body of `VideoHandler.cut_wav` over the `pairwise` pairs,
with `i` the output-segment counter (starting at 1): if `start` is zero
and `to` is the sentinel, yield the original waveform and `break`;
otherwise build the trim command (both `without_millis()` calls may
raise) and yield `(start, f"{basename}-{i}.wav")`.  The ffmpeg invocation
itself is an external side effect and is dropped. -/
def cut_wavGo (basename wav_path : PyStr) : ℕ → List (TimeCode × CutPoint) → Option (List (TimeCode × PyStr))
  | _, [] => some []
  | i, (start, toPt) :: rest =>
    if start.is_zero && toPt.isEnd then some [(start, wav_path)]
    else
      match start.without_millis, toPt.toArg with
      | some _, some _ =>
        (cut_wavGo basename wav_path (i + 1) rest).map
          (fun r => (start, (basename ++ segSuffix i)) :: r)
      | _, _ => none

/-- `VideoHandler.cut_wav`: the list of `(base_time, path)` pairs the
generator yields. -/
def VideoHandler.cut_wav (cut_times : List TimeCode) (wav_path : PyStr) :
    Option (List (TimeCode × PyStr)) :=
  cut_wavGo (splitext wav_path).1 wav_path 1 (pairsWithEnd ⟨zero_code⟩ cut_times)

/-- The regex match `re.match` on the pattern (bracket, digits, bracket,
optional whitespace, rest of line) of
`VideoHandler.translate_batch`: an opening bracket, one or more digits,
a closing bracket, optional whitespace, then at least one character
(the rest of the line, greedy).  Returns the numeric index and group 2. -/
def parseReplyLine (line : PyStr) : Option (ℕ × PyStr) :=
  match line with
  | [] => none
  | c :: rest =>
    if c == '[' then
      let ds := rest.takeWhile Char.isDigit
      match rest.dropWhile Char.isDigit with
      | b :: rest3 =>
        if ds ≠ [] ∧ b == ']' then
          match rest3.dropWhile pySpace with
          | [] => none
          | g2 => some (Nat.ofDigits 10 ((ds.map digitVal).reverse), g2)
      else none
      | [] => none
    else none

/-- Assignment `entries[index].text = translated_text` on the (insertion-ordered)
entries dict, modelled as an association list: `KeyError` (`none`) when
`index` is not a key. -/
def updateText : List (ℕ × SRTEntry) → ℕ → PyStr → Option (List (ℕ × SRTEntry))
  | [], _, _ => none
  | (k, e) :: rest, idx, txt =>
    if k = idx then some ((k, e.setText txt) :: rest)
    else (updateText rest idx txt).map (fun r => (k, e) :: r)

/-- The line loop of `VideoHandler.translate_batch`: strip each line, skip
empty lines, and for each line matching `[index] text` assign the stripped
group 2 to `entries[index].text`.  Returns the entries as mutated so far
together with `true` when a `KeyError` aborted the loop (the exception
propagates out of `translate_batch`, but the dict mutations made by
earlier lines persist). -/
def procLines : List (ℕ × SRTEntry) → List PyStr → (List (ℕ × SRTEntry)) × Bool
  | entries, [] => (entries, false)
  | entries, line :: rest =>
    let l := pyStrip line
    if l.isEmpty then procLines entries rest
    else
      match parseReplyLine l with
      | none => procLines entries rest
      | some (idx, txt) =>
        match updateText entries idx (pyStrip txt) with
        | none => (entries, true)
        | some e2 => procLines e2 rest

/-- Reply handling of `VideoHandler.translate_batch`, given the reply text the model
returned: `lines = translation_text.strip().split(newline)`, then the line
loop.  (The network call producing `translation_text` is the external
collaborator; prompt construction does not affect the entries.) -/
def VideoHandler.translate_batch (entries : List (ℕ × SRTEntry)) (reply : PyStr) :
    (List (ℕ × SRTEntry)) × Bool :=
  procLines entries (splitOnChar '\n' (pyStrip reply))

/-- The canonical code built from already-split numeric fields; every
`seconds_to_code` result with a non-negative input has this shape. -/
def codeOf (h m s r : ℕ) : PyStr :=
  pad0 2 (natToStr h) ++ ':' ::
    (pad0 2 (natToStr m) ++ ':' :: (pad0 2 (natToStr s) ++ ',' :: pad0 3 (natToStr r)))

/-- The two concrete `TimeCode`s used in the C9 witness. -/
def tc_a : TimeCode := ⟨ "00:00:01,500".toList⟩

/-- Second concrete `TimeCode` for the C9 witness. -/
def tc_b : TimeCode := ⟨ "00:00:02,500".toList⟩
/-- Concrete transcription data for the C2 witness: two audio segments,
with two and one transcript segments. -/
def segmentsW : List (List TransSeg) :=
  [[TransSeg.nested ( "00:00:00,000".toList) ( "00:00:01,000".toList) ( "one".toList),
    TransSeg.nested ( "00:00:01,000".toList) ( "00:00:02,000".toList) ( "two".toList)],
   [TransSeg.nested ( "00:00:00,500".toList) ( "00:00:01,500".toList) ( "three".toList)]]

/-- The entries `VideoHandler.run` writes for `segmentsW`. -/
def entriesW : List SRTEntry :=
  [⟨1, ⟨ "00:00:00,000".toList⟩, ⟨ "00:00:01,000".toList⟩, "one".toList⟩,
   ⟨2, ⟨ "00:00:01,000".toList⟩, ⟨ "00:00:02,000".toList⟩, "two".toList⟩,
   ⟨3, ⟨ "00:00:00,500".toList⟩, ⟨ "00:00:01,500".toList⟩, "three".toList⟩]
/-- Concrete waveform path for the C8 witness. -/
def wavW : PyStr := "a.wav".toList

/-- First cut time for the C8 witness (1 s). -/
def tcW1 : TimeCode := ⟨ "00:00:01,000".toList⟩

/-- Second cut time for the C8 witness (2 s). -/
def tcW2 : TimeCode := ⟨ "00:00:02,000".toList⟩
/-- The reply text used in C5. -/
def replyC5 : PyStr := "[1] hello\n[3] world\nnoise line".toList
/-- The reply text used in C10: index 9 is not a key of the batch. -/
def replyC10 : PyStr := "[1] hello\n[9] zzz".toList
/-- The C3 counterexample string: `"00:00:00,12"` fully matches neither
pattern, yet is accepted (as `"00:00:00,12,000"`). -/
def cexC3 : PyStr := "00:00:00,12".toList


/-! ## Decimal formatting and parsing lemmas -/

theorem digitVal_digitChar {d : ℕ} (h : d < 10) : digitVal (digitChar d) = d := by
  interval_cases d <;> rfl

theorem isDigit_digitChar {d : ℕ} (h : d < 10) : (digitChar d).isDigit = true := by
  interval_cases d <;> rfl

theorem natToStr_ne_nil (n : ℕ) : natToStr n ≠ [] := by
  unfold natToStr
  split
  · simp
  · simp [Nat.digits_ne_nil_iff_ne_zero, *]

theorem natToStr_all_digits (n : ℕ) : ∀ c ∈ natToStr n, c.isDigit = true := by
  unfold natToStr
  split
  · simp
  · intro c hc
    simp only [List.mem_map, List.mem_reverse] at hc
    obtain ⟨d, hd, rfl⟩ := hc
    exact isDigit_digitChar (Nat.digits_lt_base (by norm_num) hd)

theorem natToStr_all_digits_bool (n : ℕ) : (natToStr n).all Char.isDigit = true := by
  simpa [List.all_eq_true] using natToStr_all_digits n

theorem pyInt_natToStr (n : ℕ) : pyInt? (natToStr n) = some n := by
  rw [pyInt?, if_pos ⟨natToStr_ne_nil n, natToStr_all_digits_bool n⟩]
  congr 1
  by_cases h0 : n = 0
  · subst h0; rfl
  · rw [natToStr, if_neg h0]
    simp only [List.map_reverse, List.map_map, List.reverse_reverse]
    have : (Nat.digits 10 n).map (digitVal ∘ digitChar) = Nat.digits 10 n := by
      conv_rhs => rw [← List.map_id (Nat.digits 10 n)]
      apply List.map_congr_left
      intro d hd
      exact digitVal_digitChar (Nat.digits_lt_base (by norm_num) hd)
    rw [this, Nat.ofDigits_digits]

theorem ofDigits_replicate_zero (b k : ℕ) : Nat.ofDigits b (List.replicate k 0) = 0 := by
  induction k with
  | zero => rfl
  | succ k ih => simp [List.replicate_succ, Nat.ofDigits_cons, ih]

theorem pad0_all_digits {s : PyStr} (hs : ∀ c ∈ s, c.isDigit = true) (w : ℕ) :
    ∀ c ∈ pad0 w s, c.isDigit = true := by
  intro c hc
  rcases List.mem_append.1 hc with h | h
  · rw [List.eq_of_mem_replicate h]; rfl
  · exact hs c h

theorem pyInt_pad0 (w n : ℕ) : pyInt? (pad0 w (natToStr n)) = some n := by
  have hne : pad0 w (natToStr n) ≠ [] := by
    simp [pad0, natToStr_ne_nil n]
  have hdig : (pad0 w (natToStr n)).all Char.isDigit = true := by
    simpa [List.all_eq_true] using pad0_all_digits (natToStr_all_digits n) w
  have key := pyInt_natToStr n
  rw [pyInt?, if_pos ⟨natToStr_ne_nil n, natToStr_all_digits_bool n⟩, Option.some.injEq] at key
  rw [pyInt?, if_pos ⟨hne, hdig⟩, Option.some.injEq]
  rw [pad0, List.map_append, List.reverse_append, Nat.ofDigits_append]
  have hz : (List.map digitVal (List.replicate (w - (natToStr n).length) '0')).reverse =
      List.replicate (w - (natToStr n).length) (0 : ℕ) := by
    simp only [List.map_replicate, List.reverse_replicate]
    norm_num [digitVal]
    exact Or.inr rfl
  rw [hz, ofDigits_replicate_zero, Nat.mul_zero, Nat.add_zero, key]

theorem pad0_length {s : PyStr} {w : ℕ} (h : s.length ≤ w) : (pad0 w s).length = w := by
  simp [pad0]
  omega

theorem natToStr_length_le {n w : ℕ} (hw : 1 ≤ w) (h : n < 10 ^ w) :
    (natToStr n).length ≤ w := by
  unfold natToStr
  split
  · simpa using hw
  · rw [List.length_map, List.length_reverse]
    rw [Nat.digits_len 10 n (by norm_num) (by assumption)]
    have := Nat.log_lt_of_lt_pow (by assumption) h
    omega

/-! ## `splitOnChar` lemmas -/

theorem splitOnChar_ne_nil (sep : Char) (s : PyStr) : splitOnChar sep s ≠ [] := by
  induction s with
  | nil => simp [splitOnChar]
  | cons c cs ih =>
    rw [splitOnChar]
    cases h : splitOnChar sep cs with
    | nil => exact absurd h ih
    | cons a b => by_cases hc : (c == sep) = true <;> simp [hc]

theorem splitOnChar_not_mem {sep : Char} {s : PyStr} (h : sep ∉ s) :
    splitOnChar sep s = [s] := by
  induction s with
  | nil => rfl
  | cons c cs ih =>
    have hc : ¬(c == sep) = true := by
      simp only [beq_iff_eq]
      intro hh
      exact h (hh ▸ List.mem_cons_self c cs)
    have ih2 := ih (fun hm => h (List.mem_cons_of_mem c hm))
    rw [splitOnChar, ih2]
    simp [hc]

theorem splitOnChar_append_sep {sep : Char} {s : PyStr} (t : PyStr) (h : sep ∉ s) :
    splitOnChar sep (s ++ sep :: t) = s :: splitOnChar sep t := by
  induction s with
  | nil =>
    rw [List.nil_append, splitOnChar]
    rcases ht : splitOnChar sep t with _ | ⟨a, b⟩
    · exact absurd ht (splitOnChar_ne_nil sep t)
    · simp
  | cons c cs ih =>
    have hc : ¬(c == sep) = true := by
      simp only [beq_iff_eq]
      intro hh
      exact h (hh ▸ List.mem_cons_self c cs)
    have ih2 := ih (fun hm => h (List.mem_cons_of_mem c hm))
    rw [List.cons_append, splitOnChar, ih2]
    simp [hc]

theorem digits_not_mem {s : PyStr} (hs : ∀ c ∈ s, c.isDigit = true) {x : Char}
    (hx : x.isDigit = false) : x ∉ s := by
  intro hm
  rw [hs x hm] at hx
  exact Bool.noConfusion hx

/-! ## Parsing a `codeOf` string -/

theorem seconds_codeOf (h m s r : ℕ) :
    TimeCode.seconds ⟨codeOf h m s r⟩ =
      some ((h : ℚ) * 3600 + (m : ℚ) * 60 + (s : ℚ) + (r : ℚ) / 1000) := by
  have hcolon : (':' : Char).isDigit = false := rfl
  have hcomma : (',' : Char).isDigit = false := rfl
  have nm1 : ':' ∉ pad0 2 (natToStr h) :=
    digits_not_mem (pad0_all_digits (natToStr_all_digits h) 2) hcolon
  have nm2 : ':' ∉ pad0 2 (natToStr m) :=
    digits_not_mem (pad0_all_digits (natToStr_all_digits m) 2) hcolon
  have nm3 : ':' ∉ pad0 2 (natToStr s) ++ ',' :: pad0 3 (natToStr r) := by
    intro hmem
    rcases List.mem_append.1 hmem with hA | hA
    · exact digits_not_mem (pad0_all_digits (natToStr_all_digits s) 2) hcolon hA
    · rcases List.mem_cons.1 hA with hA | hA
      · exact absurd hA.symm (by decide)
      · exact digits_not_mem (pad0_all_digits (natToStr_all_digits r) 3) hcolon hA
  have nc1 : ',' ∉ pad0 2 (natToStr s) :=
    digits_not_mem (pad0_all_digits (natToStr_all_digits s) 2) hcomma
  have nc2 : ',' ∉ pad0 3 (natToStr r) :=
    digits_not_mem (pad0_all_digits (natToStr_all_digits r) 3) hcomma
  have hin : ',' ∈ pad0 2 (natToStr s) ++ ',' :: pad0 3 (natToStr r) :=
    List.mem_append_right _ (List.mem_cons_self _ _)
  rw [TimeCode.seconds]
  rw [show (⟨codeOf h m s r⟩ : TimeCode).code = codeOf h m s r from rfl]
  rw [codeOf, splitOnChar_append_sep _ nm1, splitOnChar_append_sep _ nm2,
    splitOnChar_not_mem nm3]
  simp only [hin, if_true, splitOnChar_append_sep _ nc1, splitOnChar_not_mem nc2, pyInt_pad0]

/-! ## `seconds_to_code` characterisation on non-negative inputs -/

theorem fdiv_natCast (a b : ℕ) : Int.fdiv (a : ℤ) (b : ℤ) = ((a / b : ℕ) : ℤ) :=
  (Int.ofNat_fdiv a b).symm

theorem fmod_natCast (a b : ℕ) : Int.fmod (a : ℤ) (b : ℤ) = ((a % b : ℕ) : ℤ) :=
  (Int.ofNat_fmod a b).symm

theorem pyTrunc_nonneg {q : ℚ} (h : 0 ≤ q) : pyTrunc q = ⌊q⌋ := by
  rw [pyTrunc, if_neg (not_lt.2 h)]

theorem pyTrunc_natCast_div (k b : ℕ) : pyTrunc ((k : ℚ) / (b : ℚ)) = ((k / b : ℕ) : ℤ) := by
  rw [pyTrunc_nonneg (by positivity)]
  exact_mod_cast Rat.floor_natCast_div_natCast k b

theorem pyRound_natCast (r : ℕ) : pyRound ((r : ℕ) : ℚ) = (r : ℤ) := by
  rw [pyRound]
  norm_num

theorem formatZeroPad_natCast (w r : ℕ) : formatZeroPad w ((r : ℕ) : ℤ) = pad0 w (natToStr r) := by
  rw [formatZeroPad, if_neg (not_lt.2 (Int.natCast_nonneg r))]
  simp

theorem seconds_to_code_div1000 (k : ℕ) :
    TimeCode.seconds_to_code ((k : ℚ) / 1000) =
      codeOf (k / 1000 / 3600) (k / 1000 % 3600 / 60) (k / 1000 % 60) (k % 1000) := by
  have hcast : ((1000 : ℕ) : ℚ) = (1000 : ℚ) := by norm_num
  have htr : pyTrunc ((k : ℚ) / 1000) = ((k / 1000 : ℕ) : ℤ) := by
    rw [← hcast]
    exact pyTrunc_natCast_div k 1000
  have hmillis : ((k : ℚ) / 1000 - ((k / 1000 : ℕ) : ℚ)) * 1000 = ((k % 1000 : ℕ) : ℚ) := by
    have h2 : ((k / 1000 : ℕ) : ℚ) * 1000 + ((k % 1000 : ℕ) : ℚ) = (k : ℚ) := by
      exact_mod_cast (by omega : (k / 1000) * 1000 + k % 1000 = k)
    field_simp
    linarith
  simp only [TimeCode.seconds_to_code, htr]
  rw [show ((3600 : ℤ)) = ((3600 : ℕ) : ℤ) from rfl, show ((60 : ℤ)) = ((60 : ℕ) : ℤ) from rfl,
    fdiv_natCast, fmod_natCast, fdiv_natCast, fmod_natCast]
  rw [show ((((k / 1000 : ℕ) : ℤ)) : ℚ) = ((k / 1000 : ℕ) : ℚ) from Int.cast_natCast _]
  rw [hmillis, pyRound_natCast]
  rw [formatZeroPad_natCast, formatZeroPad_natCast, formatZeroPad_natCast, formatZeroPad_natCast]
  rfl

/-- Core round-trip fact: a code produced by `seconds_to_code` from any
exact millisecond count parses back to exactly the same value. -/
theorem roundtrip_div1000 (k : ℕ) :
    TimeCode.seconds ⟨TimeCode.seconds_to_code ((k : ℚ) / 1000)⟩ = some ((k : ℚ) / 1000) := by
  rw [seconds_to_code_div1000, seconds_codeOf]
  congr 1
  have h1 : ((k / 1000 / 3600 : ℕ) : ℚ) * 3600 + ((k / 1000 % 3600 / 60 : ℕ) : ℚ) * 60 +
      ((k / 1000 % 60 : ℕ) : ℚ) = ((k / 1000 : ℕ) : ℚ) := by
    exact_mod_cast (by omega :
      (k / 1000 / 3600) * 3600 + (k / 1000 % 3600 / 60) * 60 + k / 1000 % 60 = k / 1000)
  rw [h1, eq_div_iff (by norm_num : (1000 : ℚ) ≠ 0), add_mul,
    div_mul_cancel₀ _ (by norm_num : (1000 : ℚ) ≠ 0)]
  exact_mod_cast (by omega : (k / 1000) * 1000 + k % 1000 = k)

/-! ## The form of every value `TimeCode.seconds` can return -/

theorem seconds_form {t : TimeCode} {x : ℚ} (hx : t.seconds = some x) :
    ∃ K : ℕ, x = (K : ℚ) / 1000 := by
  unfold TimeCode.seconds at hx
  split at hx
  · next _ h1 m1 r1 _ =>
    by_cases hc : ',' ∈ r1
    · rw [if_pos hc] at hx
      split at hx
      · next _ s1 ms1 _ =>
        split at hx
        · next _ _ _ _ hv mv sv msv _ _ _ _ =>
          rw [Option.some.injEq] at hx
          refine ⟨(hv * 3600 + mv * 60 + sv) * 1000 + msv, ?_⟩
          rw [← hx]
          push_cast
          field_simp
        · exact absurd hx (by simp)
      · exact absurd hx (by simp)
    · rw [if_neg hc] at hx
      split at hx
      · next _ _ _ hv mv sv _ _ _ =>
        rw [Option.some.injEq] at hx
        refine ⟨(hv * 3600 + mv * 60 + sv) * 1000, ?_⟩
        rw [← hx]
        push_cast
        field_simp
      · exact absurd hx (by simp)
  · exact absurd hx (by simp)

/-- C1.  TimeCode round-trip: for every seconds value `s` in `[0, 359999]`
with millisecond granularity (`s = k / 1000`, `k ≤ 359999000`),
`seconds_to_code(s)` produces a code which, parsed back via the `seconds`
property, yields a value within `0.001` of `s` (here: exactly `s`). -/
theorem c1_timecode_roundtrip (k : ℕ) (hk : k ≤ 359999000) :
    ∃ s : ℚ, TimeCode.seconds ⟨TimeCode.seconds_to_code ((k : ℚ) / 1000)⟩ = some s ∧
      |s - (k : ℚ) / 1000| ≤ 1 / 1000 :=
  ⟨(k : ℚ) / 1000, roundtrip_div1000 k, by simp⟩

/-- Witness for C1 at `k = 1500` (`s = 1.5`). -/
theorem c1_timecode_roundtrip_witness :
    ∃ s : ℚ, TimeCode.seconds ⟨TimeCode.seconds_to_code (((1500 : ℕ) : ℚ) / 1000)⟩ = some s ∧
      |s - ((1500 : ℕ) : ℚ) / 1000| ≤ 1 / 1000 :=
  c1_timecode_roundtrip 1500 (by norm_num)

/-- C9.  `TimeCode.add` agrees with plain seconds addition: whenever both
`seconds` properties are defined, `a.add(b)` succeeds and its `seconds`
value is within millisecond rounding tolerance of (here: exactly equal
to) `a.seconds + b.seconds`. -/
theorem c9_add_seconds (a b : TimeCode) (x y : ℚ) (ha : a.seconds = some x)
    (hb : b.seconds = some y) :
    ∃ t : TimeCode, a.add b = some t ∧
      ∃ z : ℚ, t.seconds = some z ∧ |z - (x + y)| ≤ 1 / 1000 := by
  obtain ⟨K1, rfl⟩ := seconds_form ha
  obtain ⟨K2, rfl⟩ := seconds_form hb
  have hsum : (K1 : ℚ) / 1000 + (K2 : ℚ) / 1000 = ((K1 + K2 : ℕ) : ℚ) / 1000 := by
    push_cast
    ring
  refine ⟨⟨TimeCode.seconds_to_code (((K1 + K2 : ℕ) : ℚ) / 1000)⟩, ?_, ?_⟩
  · rw [TimeCode.add]
    rw [ha, hb]
    simp [TimeCode.init?, hsum]
  · exact ⟨((K1 + K2 : ℕ) : ℚ) / 1000, roundtrip_div1000 (K1 + K2), by rw [hsum]; simp⟩

/-- Witness for C9: `1.5 + 2.5`. -/
theorem c9_add_seconds_witness :
    ∃ t : TimeCode, tc_a.add tc_b = some t ∧
      ∃ z : ℚ, t.seconds = some z ∧ |z - ((3 : ℚ) / 2 + (5 : ℚ) / 2)| ≤ 1 / 1000 :=
  c9_add_seconds tc_a tc_b (3 / 2) (5 / 2)
    (by simp [tc_a, TimeCode.seconds, splitOnChar, pyInt?, digitVal, Nat.ofDigits]; norm_num)
    (by simp [tc_b, TimeCode.seconds, splitOnChar, pyInt?, digitVal, Nat.ofDigits]; norm_num)

/-! ## Index bookkeeping in `VideoHandler.run` -/

theorem makeEntry_index {n : ℕ} {seg : TransSeg} {e : SRTEntry}
    (h : VideoHandler.makeEntry n seg = some e) : e.index = n := by
  cases seg with
  | nested f t x =>
    rw [show VideoHandler.makeEntry n (TransSeg.nested f t x) = SRTEntry.init? n f t x from rfl] at h
    unfold SRTEntry.init? at h
    cases hst : TimeCode.init? (TCInput.str f) with
    | none => rw [hst] at h; simp at h
    | some st =>
      cases het : TimeCode.init? (TCInput.str t) with
      | none => rw [hst, het] at h; simp at h
      | some et =>
        rw [hst, het] at h
        simp at h
        rw [← h]
  | flat _ _ _ => simp [VideoHandler.makeEntry] at h

theorem batchEntriesGo_spec (l : List TransSeg) : ∀ (base i : ℕ) (es : List SRTEntry),
    VideoHandler.batchEntriesGo base i l = some es →
      es.map SRTEntry.index = List.range' (base + i) l.length := by
  induction l with
  | nil =>
    intro base i es h
    simp [VideoHandler.batchEntriesGo] at h
    subst h
    simp
  | cons seg rest ih =>
    intro base i es h
    unfold VideoHandler.batchEntriesGo at h
    cases he : VideoHandler.makeEntry (base + i) seg with
    | none => rw [he] at h; simp at h
    | some e =>
      rw [he] at h
      cases hm : VideoHandler.batchEntriesGo base (i + 1) rest with
      | none => rw [hm] at h; simp at h
      | some more =>
        rw [hm] at h
        simp at h
        subst h
        have hrest := ih base (i + 1) more hm
        simp only [List.map_cons, List.length_cons, hrest, makeEntry_index he]
        rw [List.range'_succ]
        congr 1

theorem batchEntriesGo_length (l : List TransSeg) : ∀ (base i : ℕ) (es : List SRTEntry),
    VideoHandler.batchEntriesGo base i l = some es → es.length = l.length := by
  intro base i es h
  have := congrArg List.length (batchEntriesGo_spec l base i es h)
  simpa using this

theorem runBatches_spec (bs : List (List TransSeg)) : ∀ (base b2 : ℕ) (es : List SRTEntry),
    VideoHandler.runBatches base bs = some (b2, es) →
      es.map SRTEntry.index = List.range' base es.length ∧ b2 = base + es.length ∧
        es.length = (bs.map List.length).sum := by
  induction bs with
  | nil =>
    intro base b2 es h
    simp [VideoHandler.runBatches] at h
    obtain ⟨h1, h2⟩ := h
    subst h1
    subst h2
    simp
  | cons b rest ih =>
    intro base b2 es h
    unfold VideoHandler.runBatches at h
    cases he : VideoHandler.batchEntriesGo base 0 b with
    | none => rw [he] at h; simp at h
    | some es1 =>
      rw [he] at h
      cases hr : VideoHandler.runBatches (base + b.length) rest with
      | none => rw [hr] at h; simp at h
      | some p =>
        obtain ⟨b3, es2⟩ := p
        rw [hr] at h
        simp at h
        obtain ⟨hb2, hes⟩ := h
        subst hb2
        subst hes
        obtain ⟨ih1, ih2, ih3⟩ := ih (base + b.length) b3 es2 hr
        have h1 := batchEntriesGo_spec b base 0 es1 he
        have hlen1 := batchEntriesGo_length b base 0 es1 he
        rw [Nat.add_zero] at h1
        refine ⟨?_, ?_, ?_⟩
        · rw [List.map_append, h1, ih1, List.length_append, hlen1]
          rw [List.range'_append_1 base b.length es2.length]
          congr 1
          omega
        · simp [List.length_append]
          omega
        · simp [List.length_append, hlen1, ih3]

theorem batchedGo_sum_length {α : Type} (l : List α) : ∀ (k : ℕ) (cur : List α),
    ((VideoHandler.batchedGo k cur l).map List.length).sum = cur.length + l.length := by
  induction l with
  | nil =>
    intro k cur
    cases cur <;> simp [VideoHandler.batchedGo]
  | cons a rest ih =>
    intro k cur
    cases k with
    | zero =>
      rw [VideoHandler.batchedGo]
      simp only [List.map_cons, List.sum_cons, ih 49 [a], List.length_reverse, List.length_cons]
      simp
      omega
    | succ k =>
      rw [VideoHandler.batchedGo, ih k (a :: cur)]
      simp
      omega

theorem batched50_sum_length {α : Type} (l : List α) :
    ((VideoHandler.batched50 l).map List.length).sum = l.length := by
  simpa using batchedGo_sum_length l 50 []

theorem runSegments_spec (segs : List (List TransSeg)) : ∀ (base b2 : ℕ) (es : List SRTEntry),
    VideoHandler.runSegments base segs = some (b2, es) →
      es.map SRTEntry.index = List.range' base es.length ∧ b2 = base + es.length ∧
        es.length = (segs.map List.length).sum := by
  induction segs with
  | nil =>
    intro base b2 es h
    simp [VideoHandler.runSegments] at h
    obtain ⟨h1, h2⟩ := h
    subst h1
    subst h2
    simp
  | cons seg rest ih =>
    intro base b2 es h
    unfold VideoHandler.runSegments at h
    cases hb : VideoHandler.runBatches base (VideoHandler.batched50 seg) with
    | none => rw [hb] at h; simp at h
    | some p =>
      obtain ⟨bmid, es1⟩ := p
      cases hs : VideoHandler.runSegments bmid rest with
      | none =>
        rw [hb] at h
        simp [hs] at h
      | some p2 =>
        obtain ⟨b3, es2⟩ := p2
        rw [hb] at h
        simp [hs] at h
        obtain ⟨hb2, hes⟩ := h
        subst hb2
        subst hes
        obtain ⟨g1, g2, g3⟩ := runBatches_spec _ base bmid es1 hb
        obtain ⟨i1, i2, i3⟩ := ih bmid b3 es2 hs
        have hseg : es1.length = seg.length := by
          rw [g3, batched50_sum_length]
        refine ⟨?_, ?_, ?_⟩
        · rw [List.map_append, g1, i1, List.length_append, g2,
            List.range'_append_1 base es1.length es2.length]
          congr 1
          omega
        · rw [List.length_append]
          omega
        · rw [List.length_append, hseg, i3]
          simp

/-- C2.  Across a full run whose transcription data holds `N` transcript
segments in total, the `SRTEntry` indices written to the output are
exactly `1..N` (`List.range' 1 N`): strictly increasing, no gaps, no
duplicates, with the counter never reset across batch or segment
boundaries. -/
theorem c2_run_indices (segments : List (List TransSeg)) (es : List SRTEntry)
    (h : VideoHandler.run segments = some es) :
    es.map SRTEntry.index = List.range' 1 ((segments.map List.length).sum) := by
  unfold VideoHandler.run at h
  cases hr : VideoHandler.runSegments 1 segments with
  | none => rw [hr] at h; simp at h
  | some p =>
    obtain ⟨b2, es2⟩ := p
    rw [hr] at h
    simp at h
    subst h
    obtain ⟨h1, _, h3⟩ := runSegments_spec segments 1 b2 es2 hr
    rw [h1, h3]

/-- Witness for C2: a three-segment run over two audio segments. -/
theorem c2_run_indices_witness :
    entriesW.map SRTEntry.index = List.range' 1 ((segmentsW.map List.length).sum) :=
  c2_run_indices segmentsW entriesW (by decide)

/-! ## Segmenter claims -/

/-- C7.  `cut_wav` with an empty cut list yields exactly one
`(base_time, path)` pair: the zero `TimeCode` and the original waveform
path, unchanged (the `break` branch — no trim command is ever built). -/
theorem c7_cut_wav_empty (wav_path : PyStr) :
    VideoHandler.cut_wav [] wav_path = some [(⟨zero_code⟩, wav_path)] := rfl

theorem zero_code_seconds : TimeCode.seconds ⟨zero_code⟩ = some 0 := by
  simp [TimeCode.seconds, splitOnChar, pyInt?, digitVal, Nat.ofDigits, zero_code]

theorem is_zero_eq_code {t : TimeCode} (h : t.is_zero = true) : t = ⟨zero_code⟩ := by
  obtain ⟨c⟩ := t
  rw [TimeCode.is_zero] at h
  simp only [beq_iff_eq] at h
  rw [h]

/-- C8.  `cut_wav` with cut list `[T1, T2]`, `0 < T1 < T2` (as seconds):
exactly three segments, with base times `0, T1, T2` in that strictly
increasing order, and output paths `{basename}-1.wav`, `{basename}-2.wav`,
`{basename}-3.wav`. -/
theorem c8_cut_wav_two_cuts (wav_path : PyStr) (T1 T2 : TimeCode) (s1 s2 : ℚ)
    (h1 : T1.seconds = some s1) (h2 : T2.seconds = some s2)
    (hpos : 0 < s1) (hlt : s1 < s2)
    (u1 u2 : PyStr) (hu1 : T1.without_millis = some u1) (hu2 : T2.without_millis = some u2) :
    VideoHandler.cut_wav [T1, T2] wav_path =
      some [(⟨zero_code⟩, (splitext wav_path).1 ++ segSuffix 1),
            (T1, (splitext wav_path).1 ++ segSuffix 2),
            (T2, (splitext wav_path).1 ++ segSuffix 3)] ∧
      TimeCode.seconds ⟨zero_code⟩ = some 0 := by
  have hz2 : T2.is_zero = false := by
    cases hz : T2.is_zero with
    | false => rfl
    | true =>
      have := is_zero_eq_code hz
      rw [this, zero_code_seconds] at h2
      rw [Option.some.injEq] at h2
      subst h2
      linarith
  have hzw : TimeCode.without_millis ⟨zero_code⟩ = some ( "00:00:00".toList) := by decide
  refine ⟨?_, zero_code_seconds⟩
  rw [VideoHandler.cut_wav]
  rw [show pairsWithEnd ⟨zero_code⟩ [T1, T2] =
    [(⟨zero_code⟩, CutPoint.tc T1), (T1, CutPoint.tc T2), (T2, CutPoint.endmark)] from rfl]
  rw [cut_wavGo]
  rw [if_neg (by simp [CutPoint.isEnd])]
  rw [hzw]
  simp only [CutPoint.toArg, hu1, Option.map_some]
  rw [cut_wavGo]
  rw [if_neg (by simp [CutPoint.isEnd])]
  rw [hu1]
  simp only [CutPoint.toArg, hu2, Option.map_some]
  rw [cut_wavGo]
  rw [if_neg (by simp [hz2])]
  rw [hu2]
  simp only [CutPoint.toArg]
  rw [cut_wavGo]
  rfl

/-- Witness for C8 with cuts at 1 s and 2 s. -/
theorem c8_cut_wav_two_cuts_witness :
    VideoHandler.cut_wav [tcW1, tcW2] wavW =
      some [(⟨zero_code⟩, (splitext wavW).1 ++ segSuffix 1),
            (tcW1, (splitext wavW).1 ++ segSuffix 2),
            (tcW2, (splitext wavW).1 ++ segSuffix 3)] ∧
      TimeCode.seconds ⟨zero_code⟩ = some 0 :=
  c8_cut_wav_two_cuts wavW tcW1 tcW2 1 2
    (by simp [tcW1, TimeCode.seconds, splitOnChar, pyInt?, digitVal, Nat.ofDigits])
    (by simp [tcW2, TimeCode.seconds, splitOnChar, pyInt?, digitVal, Nat.ofDigits])
    (by norm_num) (by norm_num)
    ( "00:00:01".toList) ( "00:00:02".toList) (by decide) (by decide)

/-! ## Translator parsing claims -/

/-- C5.  Parsing the reply `"[1] hello\n[3] world\nnoise line"` against a
batch with indices 1, 2, 3: the text of entry 1 becomes `"hello"`, that
of entry 3 becomes `"world"`, entry 2 keeps its original text, the non-matching line
is silently ignored, and the batch does not fail (no `KeyError`). -/
theorem c5_translator_parsing (e1 e2 e3 : SRTEntry) :
    VideoHandler.translate_batch [(1, e1), (2, e2), (3, e3)] replyC5 =
      ([(1, e1.setText ( "hello".toList)), (2, e2), (3, e3.setText ( "world".toList))],
        false) := rfl

/-- C10.  A reply line matching `[index] text` whose index is not a key of
the batch raises `KeyError` (the `true` flag: the exception aborts the
loop and propagates), and entries updated by earlier lines keep their
mutation — the batch is not left unchanged. -/
theorem c10_keyerror_on_unknown_index (e1 e2 : SRTEntry) :
    VideoHandler.translate_batch [(1, e1), (2, e2)] replyC10 =
      ([(1, e1.setText ( "hello".toList)), (2, e2)], true) := rfl

/-! ## `TimeCode` string acceptance claims -/

theorem seconds_pattern_length {s : PyStr} (h : seconds_pattern s = true) : 12 ≤ s.length := by
  rcases s with _ | ⟨a1, _ | ⟨a2, _ | ⟨a3, _ | ⟨a4, _ | ⟨a5, _ | ⟨a6, _ | ⟨a7, _ | ⟨a8,
    _ | ⟨a9, _ | ⟨a10, _ | ⟨a11, _ | ⟨a12, t⟩⟩⟩⟩⟩⟩⟩⟩⟩⟩⟩⟩ <;>
      simp [seconds_pattern] at h ⊢

/-- Amended C3.  A string fully matching `HH:MM:SS,mmm` is stored
unchanged; a string fully matching `HH:MM:SS` is stored with `,000`
appended; a string whose *prefix* matches neither pattern raises
`TypeError`.  (The source, however, uses prefix matches — see the
counterexample — so "any other string" in the original claim is wrong.) -/
theorem c3_parse_acceptance_amended (s : PyStr) :
    (spec_full_millis s = true → TimeCode.init? (TCInput.str s) = some ⟨s⟩) ∧
    (spec_full_hms s = true →
      TimeCode.init? (TCInput.str s) = some ⟨s ++ [',', '0', '0', '0']⟩) ∧
    (seconds_pattern s = false → seconds_with_milliseconds_pattern s = false →
      TimeCode.init? (TCInput.str s) = none) := by
  refine ⟨?_, ?_, ?_⟩
  · intro h
    rw [spec_full_millis, Bool.and_eq_true] at h
    simp [TimeCode.init?, h.1]
  · intro h
    rw [spec_full_hms, Bool.and_eq_true] at h
    have hlen : s.length = 8 := by simpa using h.2
    have hp1 : seconds_pattern s = false := by
      cases hsp : seconds_pattern s with
      | false => rfl
      | true =>
        have := seconds_pattern_length hsp
        omega
    simp [TimeCode.init?, hp1, h.1]
  · intro h1 h2
    simp [TimeCode.init?, h1, h2]

/-- Counterexample to C3 as stated: `"00:00:00,12"` matches neither
`HH:MM:SS,mmm` nor `HH:MM:SS` in full, but `TimeCode.__init__` accepts it
(prefix match) instead of raising. -/
theorem c3_prefix_accepts_counterexample :
    spec_full_millis cexC3 = false ∧ spec_full_hms cexC3 = false ∧
      TimeCode.init? (TCInput.str cexC3) = some ⟨ "00:00:00,12,000".toList⟩ := by decide

/-- Witness for the amended C3, full-millisecond branch, at `00:00:00,000`. -/
theorem c3_parse_acceptance_amended_witness :
    TimeCode.init? (TCInput.str zero_code) = some ⟨zero_code⟩ :=
  (c3_parse_acceptance_amended zero_code).1 (by decide)

/-! ## Transcript segment shape claims -/

/-- Amended C4.  The orchestrator accepts only the nested
`timestamps/from/to` transcript shape: a nested segment with parseable
times yields the `SRTEntry` with that start, end and stripped text, while
a flat `start/end/text` segment raises `KeyError` before any entry is
constructed. -/
theorem c4_segment_shapes_amended :
    (∀ (n : ℕ) (f t x : PyStr) (st et : TimeCode),
      TimeCode.init? (TCInput.str f) = some st → TimeCode.init? (TCInput.str t) = some et →
        VideoHandler.makeEntry n (TransSeg.nested f t x) = some ⟨n, st, et, pyStrip x⟩) ∧
    (∀ (n : ℕ) (s e x : PyStr), VideoHandler.makeEntry n (TransSeg.flat s e x) = none) := by
  constructor
  · intro n f t x st et hf ht
    rw [show VideoHandler.makeEntry n (TransSeg.nested f t x) = SRTEntry.init? n f t x from rfl]
    rw [SRTEntry.init?, hf, ht]
    rfl
  · intro n s e x
    rfl

/-- Counterexample to C4 as stated: a flat `start/end/text` segment with
perfectly valid timestamps constructs nothing (`KeyError: timestamps`). -/
theorem c4_flat_shape_counterexample :
    VideoHandler.makeEntry 1 (TransSeg.flat ( "00:00:00,000".toList)
      ( "00:00:01,000".toList) ( "hi".toList)) = none := rfl

/-- Witness for the amended C4 at a concrete nested segment. -/
theorem c4_segment_shapes_amended_witness :
    VideoHandler.makeEntry 1 (TransSeg.nested ( "00:00:00,000".toList)
        ( "00:00:01,000".toList) ( " hi ".toList)) =
      some ⟨1, ⟨ "00:00:00,000".toList⟩, ⟨ "00:00:01,000".toList⟩, "hi".toList⟩ :=
  c4_segment_shapes_amended.1 1 ( "00:00:00,000".toList) ( "00:00:01,000".toList)
    ( " hi ".toList) ⟨ "00:00:00,000".toList⟩ ⟨ "00:00:01,000".toList⟩
    (by decide) (by decide)

/-! ## Canonical-form claims -/

theorem pyRound_nonneg {x : ℚ} (hx : 0 ≤ x) : 0 ≤ pyRound x := by
  rw [pyRound]
  have h0 : (0 : ℤ) ≤ ⌊x⌋ := Int.floor_nonneg.2 hx
  split_ifs <;> omega

theorem seconds_to_code_eq_codeOf {q : ℚ} {N M : ℕ} (hq : 0 ≤ q)
    (hN : ⌊q⌋ = (N : ℤ)) (hM : pyRound ((q - (N : ℚ)) * 1000) = (M : ℤ)) :
    TimeCode.seconds_to_code q = codeOf (N / 3600) (N % 3600 / 60) (N % 60) M := by
  simp only [TimeCode.seconds_to_code, pyTrunc_nonneg hq, hN]
  rw [show (((N : ℤ)) : ℚ) = (N : ℚ) from Int.cast_natCast _]
  rw [hM]
  rw [show ((3600 : ℤ)) = ((3600 : ℕ) : ℤ) from rfl, show ((60 : ℤ)) = ((60 : ℕ) : ℤ) from rfl,
    fdiv_natCast, fmod_natCast, fdiv_natCast, fmod_natCast]
  rw [formatZeroPad_natCast, formatZeroPad_natCast, formatZeroPad_natCast, formatZeroPad_natCast]
  rfl

theorem spec_full_millis_codeOf {h m s r : ℕ} (hh : h < 100) (hm : m < 100) (hs : s < 100)
    (hr : r < 1000) : spec_full_millis (codeOf h m s r) = true := by
  have lh := pad0_length (natToStr_length_le (by norm_num) (show h < 10 ^ 2 by omega))
  have lm := pad0_length (natToStr_length_le (by norm_num) (show m < 10 ^ 2 by omega))
  have ls := pad0_length (natToStr_length_le (by norm_num) (show s < 10 ^ 2 by omega))
  have lr := pad0_length (natToStr_length_le (by norm_num) (show r < 10 ^ 3 by omega))
  have da := pad0_all_digits (natToStr_all_digits h) 2
  have db := pad0_all_digits (natToStr_all_digits m) 2
  have dc := pad0_all_digits (natToStr_all_digits s) 2
  have dd := pad0_all_digits (natToStr_all_digits r) 3
  obtain ⟨a1, a2, ea⟩ := List.length_eq_two.1 lh
  obtain ⟨b1, b2, eb⟩ := List.length_eq_two.1 lm
  obtain ⟨c1, c2, ec⟩ := List.length_eq_two.1 ls
  obtain ⟨d1, d2, d3, ed⟩ := List.length_eq_three.1 lr
  have ha1 : a1.isDigit = true := da a1 (by rw [ea]; simp)
  have ha2 : a2.isDigit = true := da a2 (by rw [ea]; simp)
  have hb1 : b1.isDigit = true := db b1 (by rw [eb]; simp)
  have hb2 : b2.isDigit = true := db b2 (by rw [eb]; simp)
  have hc1 : c1.isDigit = true := dc c1 (by rw [ec]; simp)
  have hc2 : c2.isDigit = true := dc c2 (by rw [ec]; simp)
  have hd1 : d1.isDigit = true := dd d1 (by rw [ed]; simp)
  have hd2 : d2.isDigit = true := dd d2 (by rw [ed]; simp)
  have hd3 : d3.isDigit = true := dd d3 (by rw [ed]; simp)
  rw [codeOf, ea, eb, ec, ed]
  simp [spec_full_millis, seconds_pattern, ha1, ha2, hb1, hb2, hc1, hc2, hd1, hd2, hd3]

theorem spec_full_hms_shape {s : PyStr} (h : spec_full_hms s = true) :
    ∃ d1 d2 d3 d4 d5 d6 : Char, s = [d1, d2, ':', d3, d4, ':', d5, d6] ∧
      d1.isDigit = true ∧ d2.isDigit = true ∧ d3.isDigit = true ∧ d4.isDigit = true ∧
      d5.isDigit = true ∧ d6.isDigit = true := by
  rw [spec_full_hms, Bool.and_eq_true] at h
  obtain ⟨hp, hlen⟩ := h
  have hlen8 : s.length = 8 := by simpa using hlen
  rcases s with _ | ⟨a1, _ | ⟨a2, _ | ⟨a3, _ | ⟨a4, _ | ⟨a5, _ | ⟨a6, _ | ⟨a7,
    _ | ⟨a8, t⟩⟩⟩⟩⟩⟩⟩⟩
  all_goals simp only [seconds_with_milliseconds_pattern] at hp
  all_goals try exact Bool.noConfusion hp
  have ht : t = [] := by
    have h0 : t.length = 0 := by
      simp only [List.length_cons] at hlen8
      omega
    exact List.length_eq_zero.1 h0
  subst ht
  simp only [Bool.and_eq_true, beq_iff_eq] at hp
  obtain ⟨⟨⟨⟨⟨⟨⟨g1, g2⟩, g3⟩, g4⟩, g5⟩, g6⟩, g7⟩, g8⟩ := hp
  subst g3
  subst g6
  exact ⟨a1, a2, a4, a5, a7, a8, rfl, g1, g2, g4, g5, g7, g8⟩

/-- Amended C6.  The canonical form fully matches `\d2:\d2:\d2,\d3`
provided: for a float input, `0 ≤ s < 360000` (at most 99 hours) and the
millisecond rounding stays below 1000; for a string input, the string
*fully* matches one of the two accepted patterns.  (The unamended claim
fails: rounding can produce a 4-digit millisecond field, hours can exceed
two digits, and prefix-matched strings carry arbitrary tails.) -/
theorem c6_canonical_form_amended :
    (∀ q : ℚ, 0 ≤ q → q < 360000 → pyRound ((q - ((pyTrunc q : ℤ) : ℚ)) * 1000) ≤ 999 →
      spec_full_millis (TimeCode.seconds_to_code q) = true) ∧
    (∀ s : PyStr, spec_full_millis s = true →
      ∃ t : TimeCode, TimeCode.init? (TCInput.str s) = some t ∧
        spec_full_millis t.code = true) ∧
    (∀ s : PyStr, spec_full_hms s = true →
      ∃ t : TimeCode, TimeCode.init? (TCInput.str s) = some t ∧
        spec_full_millis t.code = true) := by
  refine ⟨?_, ?_, ?_⟩
  · intro q hq hlt hmil
    rw [pyTrunc_nonneg hq] at hmil
    have hfn : (0 : ℤ) ≤ ⌊q⌋ := Int.floor_nonneg.2 hq
    have hN : ⌊q⌋ = ((⌊q⌋.toNat : ℕ) : ℤ) := (Int.toNat_of_nonneg hfn).symm
    have hcast : ((⌊q⌋ : ℤ) : ℚ) = ((⌊q⌋.toNat : ℕ) : ℚ) := by
      rw [hN]
      exact Int.cast_natCast _
    rw [hcast] at hmil
    have harg : 0 ≤ (q - ((⌊q⌋.toNat : ℕ) : ℚ)) * 1000 := by
      have hle : ((⌊q⌋.toNat : ℕ) : ℚ) ≤ q := by
        rw [← hcast]
        exact Int.floor_le q
      have := sub_nonneg.2 hle
      positivity
    have hM0 : (0 : ℤ) ≤ pyRound ((q - ((⌊q⌋.toNat : ℕ) : ℚ)) * 1000) := pyRound_nonneg harg
    have hM : pyRound ((q - ((⌊q⌋.toNat : ℕ) : ℚ)) * 1000) =
        (((pyRound ((q - ((⌊q⌋.toNat : ℕ) : ℚ)) * 1000)).toNat : ℕ) : ℤ) :=
      (Int.toNat_of_nonneg hM0).symm
    rw [seconds_to_code_eq_codeOf hq hN hM]
    have hNlt : ⌊q⌋.toNat ≤ 359999 := by
      have : ⌊q⌋ < 360000 := Int.floor_lt.2 (by exact_mod_cast hlt)
      omega
    have hMle : (pyRound ((q - ((⌊q⌋.toNat : ℕ) : ℚ)) * 1000)).toNat ≤ 999 := by omega
    exact spec_full_millis_codeOf (by omega) (by omega) (by omega) (by omega)
  · intro s h
    have hp : seconds_pattern s = true := by
      rw [spec_full_millis, Bool.and_eq_true] at h
      exact h.1
    exact ⟨⟨s⟩, by simp [TimeCode.init?, hp], h⟩
  · intro s h
    obtain ⟨d1, d2, d3, d4, d5, d6, rfl, g1, g2, g3, g4, g5, g6⟩ := spec_full_hms_shape h
    have hp1 : seconds_pattern [d1, d2, ':', d3, d4, ':', d5, d6] = false := rfl
    have hp2 : seconds_with_milliseconds_pattern [d1, d2, ':', d3, d4, ':', d5, d6] = true := by
      simp [seconds_with_milliseconds_pattern, g1, g2, g3, g4, g5, g6]
    refine ⟨⟨[d1, d2, ':', d3, d4, ':', d5, d6] ++ [',', '0', '0', '0']⟩, ?_, ?_⟩
    · simp [TimeCode.init?, hp1, hp2]
    · show spec_full_millis ([d1, d2, ':', d3, d4, ':', d5, d6] ++ [',', '0', '0', '0']) = true
      simp [spec_full_millis, seconds_pattern, g1, g2, g3, g4, g5, g6]

/-- The overflowing conversion behind the C6 counterexample:
`0.9996` rounds to millisecond `1000`, yielding a 13-character code. -/
theorem seconds_to_code_overflow :
    TimeCode.seconds_to_code (2499 / 2500 : ℚ) = "00:00:00,1000".toList := by
  have h : (Int.toNat 1000) = 1000 := by decide
  norm_num [TimeCode.seconds_to_code, pyTrunc, pyRound, formatZeroPad, pad0, natToStr,
    digitChar, Int.fdiv, Int.fmod, Int.floor_eq_iff, h, Nat.digits_def']

/-- Counterexample to C6 as stated: the constructible float input `0.9996`
produces the canonical form `00:00:00,1000`, which does not fully match
`\d2:\d2:\d2,\d3`. -/
theorem c6_millis_overflow_counterexample :
    TimeCode.init? (TCInput.float (2499 / 2500 : ℚ)) = some ⟨ "00:00:00,1000".toList⟩ ∧
      spec_full_millis ( "00:00:00,1000".toList) = false := by
  constructor
  · rw [show TimeCode.init? (TCInput.float (2499 / 2500 : ℚ)) =
      some ⟨TimeCode.seconds_to_code (2499 / 2500 : ℚ)⟩ from rfl, seconds_to_code_overflow]
  · decide

/-- Witness for the amended C6 at the float input `0.5`. -/
theorem c6_canonical_form_amended_witness :
    spec_full_millis (TimeCode.seconds_to_code ((1 : ℚ) / 2)) = true :=
  c6_canonical_form_amended.1 (1 / 2) (by norm_num) (by norm_num)
    (by norm_num [pyTrunc, pyRound, Int.floor_eq_iff])
